import Mathlib

/-!
Shallow embedding of the car-EMI amortization engine
(`src/car-emi-calculator.py`) over exact rationals, together with proofs of
the specified properties of `calculate_car_emi`, `build_monthly_schedule`,
`aggregate_yearly` and the percent-loan-paid computation of `main`.
-/

namespace CarEmi

/-- One row of the monthly amortization schedule, mirroring the dict appended
to `data_rows` in `build_monthly_schedule` (keys Year, MonthNum, MonthAbbr,
OldBalance, InterestPaid, PrincipalPaid, Prepayment, NewBalance). -/
structure MonthlyRecord where
  year : Int
  monthNum : Nat
  monthAbbr : String
  oldBalance : ℚ
  interestPaid : ℚ
  principalPaid : ℚ
  prepayment : ℚ
  newBalance : ℚ
  deriving Repr, DecidableEq

/-- One row of the yearly summary produced by `aggregate_yearly`
(columns Year, PrincipalSum, PrepaymentSum, InterestSum, FinalBalance,
TotalPayment). -/
structure YearlySummary where
  year : Int
  principalSum : ℚ
  prepaymentSum : ℚ
  interestSum : ℚ
  finalBalance : ℚ
  totalPayment : ℚ
  deriving Repr, DecidableEq

/-- Default record used with `List.getD`. -/
def dummyRecord : MonthlyRecord :=
  { year := 0, monthNum := 0, monthAbbr := "", oldBalance := 0, interestPaid := 0,
    principalPaid := 0, prepayment := 0, newBalance := 0 }

/-- Default summary used with `List.getD`. -/
def dummySummary : YearlySummary :=
  { year := 0, principalSum := 0, prepaymentSum := 0, interestSum := 0,
    finalBalance := 0, totalPayment := 0 }

/-- `calculate_car_emi` from the source: the standard EMI formula with the
`total_months <= 0` and zero-rate edge cases. -/
def calculate_car_emi (principal annual_interest_rate : ℚ)
    (loan_tenure_years : Int) : ℚ :=
  let monthly_interest_rate := annual_interest_rate / 100 / 12
  let total_months := loan_tenure_years * 12
  if total_months ≤ 0 then 0
  else if monthly_interest_rate = 0 then principal / (total_months : ℚ)
  else
    principal * monthly_interest_rate *
      (1 + monthly_interest_rate) ^ total_months.toNat /
      ((1 + monthly_interest_rate) ^ total_months.toNat - 1)

/-- `calendar.month_abbr[1..12]` as used for the MonthAbbr column. -/
def month_abbr : List String :=
  ["Jan", "Feb", "Mar", "Apr", "May", "Jun",
   "Jul", "Aug", "Sep", "Oct", "Nov", "Dec"]

/-- The `while balance > 0 and current_month <= total_months` loop of
`build_monthly_schedule`, as fuel-indexed recursion.  The fuel supplied by
`build_monthly_schedule` is `total_months`, which together with the starting
month 1 satisfies `current_month + fuel = total_months + 1`, so the fuel runs
out exactly when `current_month` passes `total_months` and never truncates
the loop. -/
def build_monthly_schedule_aux
    (monthly_interest_rate emi monthly_prepayment quarterly_prepayment : ℚ)
    (start_year : Int) (total_months : Nat) :
    Nat → ℚ → Nat → List MonthlyRecord
  | 0, _, _ => []
  | fuel + 1, balance, current_month =>
    if 0 < balance ∧ current_month ≤ total_months then
      let year_offset := (current_month - 1) / 12
      let this_year : Int := start_year + year_offset
      let month_index := (current_month - 1) % 12
      let interest_payment := balance * monthly_interest_rate
      let principal_payment := emi - interest_payment
      let prepay_amount :=
        (if 0 < monthly_prepayment then monthly_prepayment else 0) +
        (if current_month % 3 = 0 ∧ 0 < quarterly_prepayment
          then quarterly_prepayment else 0)
      let old_balance := balance
      let balance1 := balance - principal_payment - prepay_amount
      let new_balance := if balance1 < 0 then 0 else balance1
      { year := this_year, monthNum := current_month,
        monthAbbr := month_abbr.getD month_index "",
        oldBalance := old_balance, interestPaid := interest_payment,
        principalPaid := principal_payment, prepayment := prepay_amount,
        newBalance := new_balance } ::
      build_monthly_schedule_aux monthly_interest_rate emi monthly_prepayment
        quarterly_prepayment start_year total_months fuel new_balance
        (current_month + 1)
    else []

/-- `build_monthly_schedule` from the source: computes the EMI once and runs
the month-by-month loop starting from `balance = principal`,
`current_month = 1`. -/
def build_monthly_schedule (principal annual_interest_rate : ℚ)
    (loan_tenure_years : Int) (monthly_prepayment quarterly_prepayment : ℚ)
    (start_year : Int) : List MonthlyRecord :=
  let monthly_interest_rate := annual_interest_rate / 100 / 12
  let total_months := (loan_tenure_years * 12).toNat
  let emi := calculate_car_emi principal annual_interest_rate loan_tenure_years
  build_monthly_schedule_aux monthly_interest_rate emi monthly_prepayment
    quarterly_prepayment start_year total_months total_months principal 1

/-- The rows of the monthly schedule belonging to calendar year `y`
(the `groupby("Year")` grouping of `aggregate_yearly`). -/
def yearRecords (records : List MonthlyRecord) (y : Int) : List MonthlyRecord :=
  records.filter (fun rec => rec.year == y)

/-- `x["NewBalance"].iloc[-1]` of a year group; 0 for an absent year
(the `fillna(0)` after the left merge). -/
def lastNewBalance (recs : List MonthlyRecord) : ℚ :=
  match recs.getLast? with
  | some rec => rec.newBalance
  | none => 0

/-- `aggregate_yearly` from the source: the groupby-sums, left-merged against
the full year range `start_year .. start_year + loan_tenure_years - 1` with
absent years filled with 0, `TotalPayment` added, and `FinalBalance` clamped
at 0. -/
def aggregate_yearly (records : List MonthlyRecord) (start_year : Int)
    (loan_tenure_years : Nat) : List YearlySummary :=
  (List.range loan_tenure_years).map fun (i : Nat) =>
    let y := start_year + (i : Int)
    let recs := yearRecords records y
    let principalSum := (recs.map MonthlyRecord.principalPaid).sum
    let prepaymentSum := (recs.map MonthlyRecord.prepayment).sum
    let interestSum := (recs.map MonthlyRecord.interestPaid).sum
    let finalBalance := max 0 (lastNewBalance recs)
    { year := y, principalSum := principalSum, prepaymentSum := prepaymentSum,
      interestSum := interestSum, finalBalance := finalBalance,
      totalPayment := principalSum + interestSum + prepaymentSum }

/-- The `PctLoanPaid` computation of `main` (lines 229-237): running
cumulative sum of `PrincipalSum + PrepaymentSum`, divided by the initial
principal when positive and clipped at 100 (else 100), then forced to 100
whenever `FinalBalance <= 0`. -/
def pct_loan_paid_aux (initial_principal : ℚ) :
    ℚ → List YearlySummary → List ℚ
  | _, [] => []
  | cum, y :: rest =>
    let cum2 := cum + y.principalSum + y.prepaymentSum
    let pct :=
      if 0 < initial_principal then min (cum2 / initial_principal * 100) 100
      else 100
    let pct2 := if y.finalBalance ≤ 0 then 100 else pct
    pct2 :: pct_loan_paid_aux initial_principal cum2 rest

/-- The `PctLoanPaid` column of `main`, one value per yearly summary row. -/
def pct_loan_paid (yearly : List YearlySummary) (initial_principal : ℚ) :
    List ℚ :=
  pct_loan_paid_aux initial_principal 0 yearly

/-- Cumulative `principalSum + prepaymentSum` over the first `k` yearly rows
(`cumsum` in `main`). -/
def cumPP (ys : List YearlySummary) (k : Nat) : ℚ :=
  ((ys.take k).map (fun y => y.principalSum + y.prepaymentSum)).sum

/-- C1: for every principal, rate and integer tenure, `calculate_car_emi`
returns 0 when `tenureYears*12 ≤ 0`; returns `principal / totalMonths` when
the monthly rate is 0; and otherwise returns the reducing-balance annuity
formula `P * r * (1+r)^n / ((1+r)^n - 1)`. -/
theorem calculate_car_emi_spec (principal annual_rate : ℚ) (ty : Int) :
    (ty * 12 ≤ 0 → calculate_car_emi principal annual_rate ty = 0) ∧
    (0 < ty * 12 → annual_rate / 100 / 12 = 0 →
      calculate_car_emi principal annual_rate ty =
        principal / ((ty * 12 : Int) : ℚ)) ∧
    (0 < ty * 12 → annual_rate / 100 / 12 ≠ 0 →
      calculate_car_emi principal annual_rate ty =
        principal * (annual_rate / 100 / 12) *
          (1 + annual_rate / 100 / 12) ^ (ty * 12).toNat /
          ((1 + annual_rate / 100 / 12) ^ (ty * 12).toNat - 1)) := by
  unfold calculate_car_emi
  refine ⟨fun h => by simp [h], fun h hr => ?_, fun h hr => ?_⟩
  · rw [if_neg (by omega), if_pos hr]
  · rw [if_neg (by omega), if_neg hr]

/-- Witness for C1 at a concrete zero-rate input. -/
theorem calculate_car_emi_spec_witness :
    calculate_car_emi 100000 0 2 = 100000 / ((2 * 12 : Int) : ℚ) :=
  (calculate_car_emi_spec 100000 0 2).2.1 (by norm_num) (by norm_num)

/-- Unfolding the loop body once when the guard `balance > 0 ∧
current_month ≤ total_months` holds. -/
theorem aux_cons (r emi mp qp : ℚ) (sy : Int) (tm fuel : Nat) (b : ℚ) (m : Nat)
    (hf : fuel ≠ 0) (hb : 0 < b) (hm : m ≤ tm) :
    build_monthly_schedule_aux r emi mp qp sy tm fuel b m =
      { year := sy + ((m - 1) / 12 : Nat), monthNum := m,
        monthAbbr := month_abbr.getD ((m - 1) % 12) "",
        oldBalance := b, interestPaid := b * r,
        principalPaid := emi - b * r,
        prepayment := (if 0 < mp then mp else 0) +
          (if m % 3 = 0 ∧ 0 < qp then qp else 0),
        newBalance := if b - (emi - b * r) -
            ((if 0 < mp then mp else 0) + (if m % 3 = 0 ∧ 0 < qp then qp else 0)) < 0
          then 0
          else b - (emi - b * r) -
            ((if 0 < mp then mp else 0) + (if m % 3 = 0 ∧ 0 < qp then qp else 0)) } ::
      build_monthly_schedule_aux r emi mp qp sy tm (fuel - 1)
        (if b - (emi - b * r) -
            ((if 0 < mp then mp else 0) + (if m % 3 = 0 ∧ 0 < qp then qp else 0)) < 0
          then 0
          else b - (emi - b * r) -
            ((if 0 < mp then mp else 0) + (if m % 3 = 0 ∧ 0 < qp then qp else 0)))
        (m + 1) := by
  obtain ⟨k, rfl⟩ : ∃ k, fuel = k + 1 := ⟨fuel - 1, by omega⟩
  rw [build_monthly_schedule_aux, if_pos ⟨hb, hm⟩]
  simp

/-- C7: for principal 100000, rate 0%, tenure 2 years and no prepayments, the
installment is 100000/24 (≈ 4166.67), the schedule has exactly 24 records and
the 24th record's closing balance is exactly 0. -/
theorem zero_rate_scenario :
    calculate_car_emi 100000 0 2 = 100000 / 24 ∧
    |calculate_car_emi 100000 0 2 - 4166.67| < 5 / 1000 ∧
    (build_monthly_schedule 100000 0 2 0 0 2024).length = 24 ∧
    ((build_monthly_schedule 100000 0 2 0 0 2024).getD 23 dummyRecord).newBalance
      = 0 := by
  refine ⟨by norm_num [calculate_car_emi], by norm_num [calculate_car_emi, abs],
    ?_, ?_⟩ <;>
  norm_num [build_monthly_schedule, build_monthly_schedule_aux, calculate_car_emi]

/-- C8 counterexample: for principal 450000, rate 9%, tenure 5 years, the
installment computed by the annuity formula differs from the claimed 9332.36
by more than 1, so it is not approximately 9332.36. -/
theorem installment_not_9332 :
    1 < |calculate_car_emi 450000 9 5 - 9332.36| := by
  norm_num [calculate_car_emi, show ((60 : ℤ)).toNat = 60 from by decide, abs]

/-- C8 (amended): for principal 450000, rate 9%, tenure 5 years and no
prepayments, the first record's interest portion is exactly
450000 * 0.0075 = 3375, and the fixed installment is approximately 9341.26
(within half a paisa), as given by the annuity formula. -/
theorem nine_percent_scenario :
    ((build_monthly_schedule 450000 9 5 0 0 2024).getD 0 dummyRecord).interestPaid
      = 3375 ∧
    |calculate_car_emi 450000 9 5 - 9341.26| < 5 / 1000 := by
  constructor
  · rw [build_monthly_schedule]
    rw [aux_cons _ _ _ _ _ _ _ _ _ (by norm_num) (by norm_num) (by norm_num)]
    norm_num
  · norm_num [calculate_car_emi, show ((60 : ℤ)).toNat = 60 from by decide, abs]

/-- C10: in the month that pays the loan off early, the recorded principal
portion and prepayment keep their full computed values even though their sum
exceeds the remaining balance — only the balance is clamped at 0.  At
principal 100000, rate 0%, tenure 1 year, monthly prepayment 200000, the
single record pays principal 100000/12 and prepayment 200000 against an
opening balance of 100000, so the schedule-wide principal-plus-prepayment
total strictly exceeds the initial principal, and `aggregate_yearly`'s sums
inherit the overstatement. -/
theorem clamp_overstates_flows :
    (build_monthly_schedule 100000 0 1 200000 0 2024).length = 1 ∧
    ((build_monthly_schedule 100000 0 1 200000 0 2024).getD 0 dummyRecord).oldBalance
        = 100000 ∧
    ((build_monthly_schedule 100000 0 1 200000 0 2024).getD 0 dummyRecord).principalPaid
        = 100000 / 12 ∧
    ((build_monthly_schedule 100000 0 1 200000 0 2024).getD 0 dummyRecord).prepayment
        = 200000 ∧
    ((build_monthly_schedule 100000 0 1 200000 0 2024).getD 0 dummyRecord).newBalance
        = 0 ∧
    100000 <
      ((build_monthly_schedule 100000 0 1 200000 0 2024).map
          MonthlyRecord.principalPaid).sum +
        ((build_monthly_schedule 100000 0 1 200000 0 2024).map
          MonthlyRecord.prepayment).sum ∧
    100000 <
      ((aggregate_yearly (build_monthly_schedule 100000 0 1 200000 0 2024) 2024 1).map
          YearlySummary.principalSum).sum +
        ((aggregate_yearly (build_monthly_schedule 100000 0 1 200000 0 2024) 2024 1).map
          YearlySummary.prepaymentSum).sum := by
  refine ⟨?_, ?_, ?_, ?_, ?_, ?_, ?_⟩ <;>
    norm_num [build_monthly_schedule, build_monthly_schedule_aux, calculate_car_emi,
      aggregate_yearly, yearRecords, lastNewBalance, List.range_succ, List.filter]

/-- The first record (if any) opens at balance `b`. -/
def opensAt (b : ℚ) : List MonthlyRecord → Prop
  | [] => True
  | rec :: _ => rec.oldBalance = b

/-- Each record's opening balance equals the previous record's closing
balance. -/
def chained : List MonthlyRecord → Prop
  | r1 :: r2 :: rest => r2.oldBalance = r1.newBalance ∧ chained (r2 :: rest)
  | _ => True

/-- Every record except possibly the last has strictly positive closing
balance (the loop only continues while the balance is positive). -/
def aliveBeforeLast : List MonthlyRecord → Prop
  | r1 :: r2 :: rest => 0 < r1.newBalance ∧ aliveBeforeLast (r2 :: rest)
  | _ => True

theorem aux_zero (r emi mp qp : ℚ) (sy : Int) (tm : Nat) (b : ℚ) (m : Nat) :
    build_monthly_schedule_aux r emi mp qp sy tm 0 b m = [] := rfl

theorem aux_ne_nil (r emi mp qp : ℚ) (sy : Int) (tm fuel : Nat) (b : ℚ) (m : Nat) :
    build_monthly_schedule_aux r emi mp qp sy tm fuel b m ≠ [] ↔
      fuel ≠ 0 ∧ 0 < b ∧ m ≤ tm := by
  match fuel with
  | 0 => simp [aux_zero]
  | k + 1 =>
    rw [build_monthly_schedule_aux]
    split
    · next h => simpa using h
    · next h =>
      simp only [ne_eq, not_true_eq_false, false_iff, not_and]
      intro _
      exact fun hb hm => h ⟨hb, hm⟩

theorem aux_opensAt (r emi mp qp : ℚ) (sy : Int) (tm : Nat) :
    ∀ (fuel : Nat) (b : ℚ) (m : Nat),
      opensAt b (build_monthly_schedule_aux r emi mp qp sy tm fuel b m) := by
  intro fuel b m
  match fuel with
  | 0 => exact trivial
  | k + 1 =>
    rw [build_monthly_schedule_aux]
    split
    · exact rfl
    · exact trivial

theorem chained_cons (rec : MonthlyRecord) (l : List MonthlyRecord)
    (h : opensAt rec.newBalance l) (hc : chained l) : chained (rec :: l) := by
  match l with
  | [] => exact trivial
  | r2 :: t => exact ⟨h, hc⟩

theorem aux_chained (r emi mp qp : ℚ) (sy : Int) (tm : Nat) :
    ∀ (fuel : Nat) (b : ℚ) (m : Nat),
      chained (build_monthly_schedule_aux r emi mp qp sy tm fuel b m) := by
  intro fuel
  induction fuel with
  | zero => intro b m; exact trivial
  | succ k ih =>
    intro b m
    rw [build_monthly_schedule_aux]
    split
    · exact chained_cons _ _ (aux_opensAt r emi mp qp sy tm k _ (m + 1)) (ih _ (m + 1))
    · exact trivial


theorem if_neg_clamp (x : ℚ) : (if x < 0 then 0 else x) = max 0 x := by
  rcases lt_or_le x 0 with h | h
  · rw [if_pos h, max_eq_left (le_of_lt h)]
  · rw [if_neg (not_lt.mpr h), max_eq_right h]

theorem prepay_nonneg (mp qp : ℚ) (m : Nat) :
    (0:ℚ) ≤ (if 0 < mp then mp else 0) + (if m % 3 = 0 ∧ 0 < qp then qp else 0) := by
  have h1 : (0:ℚ) ≤ if 0 < mp then mp else 0 := by
    split
    · next h => exact le_of_lt h
    · exact le_refl 0
  have h2 : (0:ℚ) ≤ if m % 3 = 0 ∧ 0 < qp then qp else 0 := by
    split
    · next h => exact le_of_lt h.2
    · exact le_refl 0
  linarith

theorem aux_mem_props (r emi mp qp : ℚ) (sy : Int) (tm : Nat) :
    ∀ (fuel : Nat) (b : ℚ) (m : Nat),
      ∀ rec ∈ build_monthly_schedule_aux r emi mp qp sy tm fuel b m,
        rec.newBalance = max 0 (rec.oldBalance - rec.principalPaid - rec.prepayment) ∧
        0 ≤ rec.newBalance ∧
        0 < rec.oldBalance ∧
        0 ≤ rec.prepayment ∧
        rec.interestPaid = rec.oldBalance * r ∧
        rec.principalPaid = emi - rec.oldBalance * r ∧
        m ≤ rec.monthNum ∧ rec.monthNum ≤ tm ∧
        rec.year = sy + ((rec.monthNum - 1) / 12 : Nat) := by
  intro fuel
  induction fuel with
  | zero => intro b m rec hrec; simp [aux_zero] at hrec
  | succ k ih =>
    intro b m rec hrec
    rw [build_monthly_schedule_aux] at hrec
    split at hrec
    · next hguard =>
      simp only [List.mem_cons] at hrec
      rcases hrec with rfl | hrec
      · dsimp only
        refine ⟨if_neg_clamp _, ?_, hguard.1, prepay_nonneg mp qp m, rfl, rfl,
          le_refl _, hguard.2, rfl⟩
        rw [if_neg_clamp]
        exact le_max_left _ _
      · have := ih _ (m + 1) rec hrec
        exact ⟨this.1, this.2.1, this.2.2.1, this.2.2.2.1, this.2.2.2.2.1,
          this.2.2.2.2.2.1, by omega, this.2.2.2.2.2.2.2.1, this.2.2.2.2.2.2.2.2⟩
    · simp at hrec

theorem alive_cons (rec : MonthlyRecord) (l : List MonthlyRecord)
    (h : l ≠ [] → 0 < rec.newBalance) (ha : aliveBeforeLast l) :
    aliveBeforeLast (rec :: l) := by
  match l with
  | [] => exact trivial
  | r2 :: t => exact ⟨h (by simp), ha⟩

theorem aux_alive (r emi mp qp : ℚ) (sy : Int) (tm : Nat) :
    ∀ (fuel : Nat) (b : ℚ) (m : Nat),
      aliveBeforeLast (build_monthly_schedule_aux r emi mp qp sy tm fuel b m) := by
  intro fuel
  induction fuel with
  | zero => intro b m; exact trivial
  | succ k ih =>
    intro b m
    rw [build_monthly_schedule_aux]
    split
    · next hguard =>
      refine alive_cons _ _ (fun hne => ?_) (ih _ (m + 1))
      exact ((aux_ne_nil r emi mp qp sy tm k _ (m + 1)).mp hne).2.1
    · exact trivial


theorem aux_length_le (r emi mp qp : ℚ) (sy : Int) (tm : Nat) :
    ∀ (fuel : Nat) (b : ℚ) (m : Nat),
      (build_monthly_schedule_aux r emi mp qp sy tm fuel b m).length ≤ fuel := by
  intro fuel
  induction fuel with
  | zero => intro b m; simp [aux_zero]
  | succ k ih =>
    intro b m
    rw [build_monthly_schedule_aux]
    split
    · simpa using ih _ (m + 1)
    · simp

theorem aux_monthNums (r emi mp qp : ℚ) (sy : Int) (tm : Nat) :
    ∀ (fuel : Nat) (b : ℚ) (m : Nat),
      (build_monthly_schedule_aux r emi mp qp sy tm fuel b m).map
          MonthlyRecord.monthNum =
        List.range' m (build_monthly_schedule_aux r emi mp qp sy tm fuel b m).length := by
  intro fuel
  induction fuel with
  | zero => intro b m; simp [aux_zero]
  | succ k ih =>
    intro b m
    rw [build_monthly_schedule_aux]
    split
    · simp only [List.map_cons, List.length_cons, List.range'_succ]
      exact congrArg _ (ih _ (m + 1))
    · simp

/-- The loop balance after processing the records `l`, starting from `b`. -/
def finalBalance_of (b : ℚ) (l : List MonthlyRecord) : ℚ :=
  match l.getLast? with
  | some rec => rec.newBalance
  | none => b

theorem finalBalance_of_cons (b : ℚ) (a : MonthlyRecord) (l : List MonthlyRecord) :
    finalBalance_of b (a :: l) = finalBalance_of a.newBalance l := by
  match l with
  | [] => rfl
  | x :: t => rfl

theorem aux_final_stop (r emi mp qp : ℚ) (sy : Int) (tm : Nat) :
    ∀ (fuel : Nat) (b : ℚ) (m : Nat), m + fuel = tm + 1 →
      (build_monthly_schedule_aux r emi mp qp sy tm fuel b m).length < fuel →
      finalBalance_of b (build_monthly_schedule_aux r emi mp qp sy tm fuel b m) ≤ 0 := by
  intro fuel
  induction fuel with
  | zero => intro b m _ h; omega
  | succ k ih =>
    intro b m hm hlen
    rw [build_monthly_schedule_aux] at hlen ⊢
    split at hlen
    · next hguard =>
      rw [if_pos hguard, finalBalance_of_cons]
      simp only [List.length_cons] at hlen
      exact ih _ (m + 1) (by omega) (Nat.lt_of_succ_lt_succ hlen)
    · next hguard =>
      rw [if_neg hguard]
      show b ≤ 0
      have hmle : m ≤ tm := by omega
      by_contra hb
      exact hguard ⟨lt_of_not_le (fun h => hb (by simpa using h)), hmle⟩


/-- C2: every schedule produced by `build_monthly_schedule` opens at the loan
principal, each subsequent record opens at the previous record's closing
balance, and every record satisfies
`closingBalance = max 0 (openingBalance - principalPortion - prepaymentApplied)`. -/
theorem schedule_balance_invariant (P rate : ℚ) (ty : Int) (mp qp : ℚ) (sy : Int) :
    opensAt P (build_monthly_schedule P rate ty mp qp sy) ∧
    chained (build_monthly_schedule P rate ty mp qp sy) ∧
    ∀ rec ∈ build_monthly_schedule P rate ty mp qp sy,
      rec.newBalance = max 0 (rec.oldBalance - rec.principalPaid - rec.prepayment) := by
  refine ⟨aux_opensAt _ _ _ _ _ _ _ _ _, aux_chained _ _ _ _ _ _ _ _ _,
    fun rec h => (aux_mem_props _ _ _ _ _ _ _ _ _ rec h).1⟩

/-- C3: `build_monthly_schedule` terminates with at most `tenureYears*12`
records; every record is emitted with a strictly positive opening balance (so
nothing is emitted once the balance reaches 0); the schedule is empty exactly
when the principal is ≤ 0 or `tenureYears*12 = 0`; and a schedule shorter
than `tenureYears*12` ends in a record whose closing balance is exactly 0, so
only early payoff (e.g. via prepayments) shortens the sequence and otherwise
the full `tenureYears*12` records are emitted even if a residual balance
remains. -/
theorem schedule_termination (P rate : ℚ) (ty : Int) (mp qp : ℚ) (sy : Int) :
    (build_monthly_schedule P rate ty mp qp sy).length ≤ (ty * 12).toNat ∧
    (∀ rec ∈ build_monthly_schedule P rate ty mp qp sy, 0 < rec.oldBalance) ∧
    ((P = 0 ∨ (ty * 12).toNat = 0) → build_monthly_schedule P rate ty mp qp sy = []) ∧
    (build_monthly_schedule P rate ty mp qp sy = [] → P ≤ 0 ∨ (ty * 12).toNat = 0) ∧
    ((build_monthly_schedule P rate ty mp qp sy).length < (ty * 12).toNat →
      ∀ rec, (build_monthly_schedule P rate ty mp qp sy).getLast? = some rec →
        rec.newBalance = 0) := by
  refine ⟨aux_length_le _ _ _ _ _ _ _ _ _,
    fun rec h => (aux_mem_props _ _ _ _ _ _ _ _ _ rec h).2.2.1, ?_, ?_, ?_⟩
  · intro hPtm
    by_contra hne
    have h := (aux_ne_nil (rate / 100 / 12)
      (calculate_car_emi P rate ty) mp qp sy ((ty * 12).toNat)
      ((ty * 12).toNat) P 1).mp hne
    rcases hPtm with hP | htm
    · rw [hP] at h; exact lt_irrefl 0 h.2.1
    · exact h.1 htm
  · intro hnil
    by_cases htm : (ty * 12).toNat = 0
    · exact Or.inr htm
    · refine Or.inl (le_of_not_lt fun hP => ?_)
      have h := (aux_ne_nil (rate / 100 / 12)
        (calculate_car_emi P rate ty) mp qp sy ((ty * 12).toNat)
        ((ty * 12).toNat) P 1).mpr ⟨htm, hP, by omega⟩
      exact h hnil
  · intro hlen rec hlast
    have hstop := aux_final_stop (rate / 100 / 12)
      (calculate_car_emi P rate ty) mp qp sy ((ty * 12).toNat)
      ((ty * 12).toNat) P 1 (by omega) hlen
    have hmem : rec ∈ build_monthly_schedule P rate ty mp qp sy :=
      List.mem_of_mem_getLast? hlast
    have hnn := (aux_mem_props _ _ _ _ _ _ _ _ _ rec hmem).2.1
    have heq : finalBalance_of P (build_monthly_schedule P rate ty mp qp sy)
        = rec.newBalance := by
      simp only [finalBalance_of, hlast]
    have hstop2 : finalBalance_of P (build_monthly_schedule P rate ty mp qp sy) ≤ 0 :=
      hstop
    rw [heq] at hstop2
    exact le_antisymm hstop2 hnn

/-- The single record of the schedule for principal 100000, rate 0%, tenure
1 year, monthly prepayment 200000: the loan pays off in month one. -/
def payoffRecord : MonthlyRecord :=
  { year := 2024, monthNum := 1, monthAbbr := "Jan", oldBalance := 100000,
    interestPaid := 0, principalPaid := 25000 / 3, prepayment := 200000,
    newBalance := 0 }

theorem payoffRecord_mem :
    payoffRecord ∈ build_monthly_schedule 100000 0 1 200000 0 2024 := by
  norm_num [payoffRecord, build_monthly_schedule, build_monthly_schedule_aux,
    calculate_car_emi, month_abbr, List.getD]

/-- Witness for C2 at a concrete input. -/
theorem schedule_balance_invariant_witness :
    payoffRecord.newBalance =
      max 0 (payoffRecord.oldBalance - payoffRecord.principalPaid -
        payoffRecord.prepayment) :=
  (schedule_balance_invariant 100000 0 1 200000 0 2024).2.2 payoffRecord
    payoffRecord_mem

/-- Witness for C3 at a concrete early-payoff input. -/
theorem schedule_termination_witness : payoffRecord.newBalance = 0 :=
  (schedule_termination 100000 0 1 200000 0 2024).2.2.2.2
    (by norm_num [build_monthly_schedule, build_monthly_schedule_aux,
      calculate_car_emi])
    payoffRecord
    (by norm_num [payoffRecord, build_monthly_schedule,
      build_monthly_schedule_aux, calculate_car_emi, month_abbr, List.getD,
      List.getLast?])


theorem getD_map_range {α : Type} (f : Nat → α) (n i : Nat) (d : α) (h : i < n) :
    ((List.range n).map f).getD i d = f i := by
  rw [List.getD_eq_getElem _ _ (by simpa using h)]
  simp

theorem aggregate_yearly_getD (records : List MonthlyRecord) (sy : Int) (ty : Nat)
    (i : Nat) (h : i < ty) :
    (aggregate_yearly records sy ty).getD i dummySummary =
      { year := sy + i,
        principalSum := ((yearRecords records (sy + i)).map
          MonthlyRecord.principalPaid).sum,
        prepaymentSum := ((yearRecords records (sy + i)).map
          MonthlyRecord.prepayment).sum,
        interestSum := ((yearRecords records (sy + i)).map
          MonthlyRecord.interestPaid).sum,
        finalBalance := max 0 (lastNewBalance (yearRecords records (sy + i))),
        totalPayment := ((yearRecords records (sy + i)).map
            MonthlyRecord.principalPaid).sum +
          ((yearRecords records (sy + i)).map MonthlyRecord.interestPaid).sum +
          ((yearRecords records (sy + i)).map MonthlyRecord.prepayment).sum } := by
  rw [aggregate_yearly, getD_map_range _ _ _ _ h]

/-- C4: `aggregate_yearly` returns exactly `tenureYears` summaries, one per
year of `[startYear, startYear + tenureYears)` in increasing order; each
year's sums are the per-field sums of that year's records (0 for a year with
no records), `finalBalance` is the last record's closing balance of the year
floored at 0 (0 for an empty year), and every year satisfies
`totalPayment = principalSum + interestSum + prepaymentSum`. -/
theorem aggregate_yearly_spec (records : List MonthlyRecord) (sy : Int) (ty : Nat) :
    (aggregate_yearly records sy ty).length = ty ∧
    ∀ i, i < ty →
      ((aggregate_yearly records sy ty).getD i dummySummary).year = sy + i ∧
      ((aggregate_yearly records sy ty).getD i dummySummary).totalPayment =
        ((aggregate_yearly records sy ty).getD i dummySummary).principalSum +
        ((aggregate_yearly records sy ty).getD i dummySummary).interestSum +
        ((aggregate_yearly records sy ty).getD i dummySummary).prepaymentSum ∧
      ((aggregate_yearly records sy ty).getD i dummySummary).principalSum =
        ((yearRecords records (sy + i)).map MonthlyRecord.principalPaid).sum ∧
      ((aggregate_yearly records sy ty).getD i dummySummary).prepaymentSum =
        ((yearRecords records (sy + i)).map MonthlyRecord.prepayment).sum ∧
      ((aggregate_yearly records sy ty).getD i dummySummary).interestSum =
        ((yearRecords records (sy + i)).map MonthlyRecord.interestPaid).sum ∧
      ((aggregate_yearly records sy ty).getD i dummySummary).finalBalance =
        max 0 (lastNewBalance (yearRecords records (sy + i))) ∧
      (yearRecords records (sy + i) = [] →
        ((aggregate_yearly records sy ty).getD i dummySummary).principalSum = 0 ∧
        ((aggregate_yearly records sy ty).getD i dummySummary).prepaymentSum = 0 ∧
        ((aggregate_yearly records sy ty).getD i dummySummary).interestSum = 0 ∧
        ((aggregate_yearly records sy ty).getD i dummySummary).finalBalance = 0) := by
  constructor
  · rw [aggregate_yearly]
    simp
  · intro i h
    rw [aggregate_yearly_getD records sy ty i h]
    refine ⟨rfl, rfl, rfl, rfl, rfl, rfl, fun hempty => ?_⟩
    rw [hempty]
    simp [lastNewBalance]

/-- Witness for C4 at a concrete input. -/
theorem aggregate_yearly_spec_witness :
    ((aggregate_yearly [] 2024 1).getD 0 dummySummary).year = 2024 + (0 : Nat) :=
  ((aggregate_yearly_spec [] 2024 1).2 0 (by norm_num)).1


theorem cumPP_cons (y : YearlySummary) (t : List YearlySummary) (k : Nat) :
    cumPP (y :: t) (k + 1) = y.principalSum + y.prepaymentSum + cumPP t k := by
  simp [cumPP]

theorem pct_aux_getD (P0 : ℚ) :
    ∀ (ys : List YearlySummary) (c : ℚ) (i : Nat), i < ys.length →
      (pct_loan_paid_aux P0 c ys).getD i 0 =
        if (ys.getD i dummySummary).finalBalance ≤ 0 then 100
        else if 0 < P0 then min ((c + cumPP ys (i + 1)) / P0 * 100) 100
        else 100 := by
  intro ys
  induction ys with
  | nil => intro c i h; simp at h
  | cons y t ih =>
    intro c i h
    match i with
    | 0 =>
      rw [pct_loan_paid_aux]
      simp only [List.getD_cons_zero, cumPP_cons]
      have hc : c + (y.principalSum + y.prepaymentSum + cumPP t 0) =
          c + y.principalSum + y.prepaymentSum := by
        simp [cumPP]
        ring
      rw [hc]
    | i + 1 =>
      rw [pct_loan_paid_aux]
      simp only [List.getD_cons_succ]
      rw [ih (c + y.principalSum + y.prepaymentSum) i (by simpa using h)]
      have hc : c + y.principalSum + y.prepaymentSum + cumPP t (i + 1) =
          c + cumPP (y :: t) (i + 1 + 1) := by
        rw [cumPP_cons]
        ring
      rw [hc]

theorem pct_length (P0 : ℚ) :
    ∀ (ys : List YearlySummary) (c : ℚ),
      (pct_loan_paid_aux P0 c ys).length = ys.length := by
  intro ys
  induction ys with
  | nil => intro c; rfl
  | cons y t ih =>
    intro c
    rw [pct_loan_paid_aux]
    simp [ih]

/-- C5: the percent-loan-paid of the i-th year equals the cumulative
`principalSum + prepaymentSum` over the first i+1 years divided by the
initial (pre-one-time-deduction) principal, times 100, clamped at 100, when
that principal is positive; equals 100 for every year when it is not
positive (in particular when it is 0); and is forced to exactly 100 for any
year whose `finalBalance ≤ 0`, overriding the ratio. -/
theorem pct_loan_paid_spec (ys : List YearlySummary) (P0 : ℚ) :
    (pct_loan_paid ys P0).length = ys.length ∧
    ∀ i, i < ys.length →
      (pct_loan_paid ys P0).getD i 0 =
        if (ys.getD i dummySummary).finalBalance ≤ 0 then 100
        else if 0 < P0 then min (cumPP ys (i + 1) / P0 * 100) 100
        else 100 := by
  constructor
  · exact pct_length P0 ys 0
  · intro i h
    rw [pct_loan_paid, pct_aux_getD P0 ys 0 i h, zero_add]

/-- Witness for C5 at a concrete input: a single year whose final balance is
0 is reported as 100% paid. -/
theorem pct_loan_paid_spec_witness :
    (pct_loan_paid [dummySummary] 100).getD 0 0 = 100 := by
  rw [(pct_loan_paid_spec [dummySummary] 100).2 0 (by norm_num)]
  norm_num [dummySummary]


/-- With a non-negative rate the fixed installment covers the interest
accrued on the full principal in one month. -/
theorem emi_ge_interest (P rate : ℚ) (ty : Int) (hP : 0 ≤ P) (hrate : 0 ≤ rate)
    (hty : 0 < ty * 12) :
    P * (rate / 100 / 12) ≤ calculate_car_emi P rate ty := by
  have hr : (0:ℚ) ≤ rate / 100 / 12 := by positivity
  rw [calculate_car_emi]
  rw [if_neg (by omega)]
  by_cases hz : rate / 100 / 12 = 0
  · rw [if_pos hz, hz, mul_zero]
    have : (0:ℚ) < ((ty * 12 : Int) : ℚ) := by exact_mod_cast hty
    positivity
  · rw [if_neg hz]
    have hrpos : (0:ℚ) < rate / 100 / 12 := lt_of_le_of_ne hr (Ne.symm hz)
    set r := rate / 100 / 12 with hrdef
    have hn : (ty * 12).toNat ≠ 0 := by omega
    have hq : (1:ℚ) < (1 + r) ^ (ty * 12).toNat := by
      have h1 : (1:ℚ) < 1 + r := by linarith
      exact one_lt_pow₀ h1 hn
    have hden : (0:ℚ) < (1 + r) ^ (ty * 12).toNat - 1 := by linarith
    rw [le_div_iff₀ hden]
    have hPr : (0:ℚ) ≤ P * r := mul_nonneg hP (le_of_lt hrpos)
    nlinarith

/-- Inductive balance invariant of the schedule loop: starting from a
balance between 0 and `P` with an installment covering `P * r`, every record
keeps its opening balance at most `P`, pays a non-negative principal
portion, and does not increase the balance. -/
theorem aux_invariant (r emi mp qp : ℚ) (sy : Int) (tm : Nat) (P : ℚ)
    (hr : 0 ≤ r) (hemi : P * r ≤ emi) :
    ∀ (fuel : Nat) (b : ℚ) (m : Nat), 0 ≤ b → b ≤ P →
      ∀ rec ∈ build_monthly_schedule_aux r emi mp qp sy tm fuel b m,
        rec.oldBalance ≤ P ∧ 0 ≤ rec.principalPaid ∧
        rec.newBalance ≤ rec.oldBalance := by
  intro fuel
  induction fuel with
  | zero => intro b m _ _ rec hrec; simp [aux_zero] at hrec
  | succ k ih =>
    intro b m hb0 hbP rec hrec
    rw [build_monthly_schedule_aux] at hrec
    split at hrec
    · next hguard =>
      have hprin : (0:ℚ) ≤ emi - b * r := by
        have : b * r ≤ P * r := mul_le_mul_of_nonneg_right hbP hr
        linarith
      have hprep := prepay_nonneg mp qp m
      simp only [List.mem_cons] at hrec
      rcases hrec with rfl | hrec
      · refine ⟨hbP, hprin, ?_⟩
        dsimp only
        rw [if_neg_clamp]
        exact max_le hb0 (by linarith)
      · refine ih _ (m + 1) ?_ ?_ rec hrec
        · rw [if_neg_clamp]
          exact le_max_left _ _
        · rw [if_neg_clamp]
          exact max_le (by linarith) (by linarith)
    · simp at hrec

/-- C9: for non-negative inputs, every record's closing balance is at most
its opening balance, opening balances never exceed the initial principal,
the principal portion is non-negative in every record, and hence the closing
balances stay bounded by the principal; with the chain property of C2 this
makes the balance trajectory non-increasing. -/
theorem schedule_balances_monotone (P rate : ℚ) (ty : Int) (mp qp : ℚ)
    (sy : Int) (hP : 0 ≤ P) (hrate : 0 ≤ rate) (hmp : 0 ≤ mp) (hqp : 0 ≤ qp) :
    ∀ rec ∈ build_monthly_schedule P rate ty mp qp sy,
      rec.newBalance ≤ rec.oldBalance ∧ rec.oldBalance ≤ P ∧
      0 ≤ rec.principalPaid ∧ rec.newBalance ≤ P := by
  intro rec hrec
  by_cases hty : 0 < ty * 12
  · have hemi := emi_ge_interest P rate ty hP hrate hty
    have h := aux_invariant (rate / 100 / 12) (calculate_car_emi P rate ty)
      mp qp sy ((ty * 12).toNat) P (by positivity) hemi
      ((ty * 12).toNat) P 1 hP (le_refl P) rec hrec
    exact ⟨h.2.2, h.1, h.2.1, le_trans h.2.2 h.1⟩
  · exfalso
    have h0 : (ty * 12).toNat = 0 := by omega
    rw [build_monthly_schedule] at hrec
    rw [h0] at hrec
    simp [aux_zero] at hrec

/-- Witness for C9 at a concrete input. -/
theorem schedule_balances_monotone_witness :
    payoffRecord.newBalance ≤ payoffRecord.oldBalance ∧
    payoffRecord.oldBalance ≤ 100000 ∧
    0 ≤ payoffRecord.principalPaid ∧ payoffRecord.newBalance ≤ 100000 :=
  schedule_balances_monotone 100000 0 1 200000 0 2024 (by norm_num)
    (by norm_num) (by norm_num) (by norm_num) payoffRecord payoffRecord_mem


theorem alive_last (l : List MonthlyRecord) (ha : aliveBeforeLast l) :
    ∀ rec ∈ l, rec.newBalance ≤ 0 → l.getLast? = some rec := by
  induction l with
  | nil => intro rec h; simp at h
  | cons a t ih =>
    intro rec hrec hle
    match t, ha with
    | [], _ =>
      simp only [List.mem_singleton] at hrec
      subst hrec
      rfl
    | b :: t2, ⟨hpos, ha2⟩ =>
      simp only [List.mem_cons] at hrec
      rcases hrec with rfl | hrec
      · exact absurd hpos (not_lt.mpr hle)
      · rw [List.getLast?_cons_cons]
        exact ih ha2 rec (by simpa using hrec) hle

theorem schedule_alive (P rate : ℚ) (ty : Int) (mp qp : ℚ) (sy : Int) :
    aliveBeforeLast (build_monthly_schedule P rate ty mp qp sy) :=
  aux_alive _ _ _ _ _ _ _ _ _

theorem schedule_months (P rate : ℚ) (ty : Int) (mp qp : ℚ) (sy : Int) :
    (build_monthly_schedule P rate ty mp qp sy).map MonthlyRecord.monthNum =
      List.range' 1 (build_monthly_schedule P rate ty mp qp sy).length :=
  aux_monthNums _ _ _ _ _ _ _ _ _

theorem schedule_month_bounds (P rate : ℚ) (ty : Int) (mp qp : ℚ) (sy : Int) :
    ∀ rec ∈ build_monthly_schedule P rate ty mp qp sy,
      1 ≤ rec.monthNum ∧
      rec.monthNum ≤ (build_monthly_schedule P rate ty mp qp sy).length := by
  intro rec hrec
  have hmem : rec.monthNum ∈
      (build_monthly_schedule P rate ty mp qp sy).map MonthlyRecord.monthNum :=
    List.mem_map_of_mem _ hrec
  rw [schedule_months] at hmem
  have := List.mem_range'_1.mp hmem
  omega

theorem schedule_exists_month (P rate : ℚ) (ty : Int) (mp qp : ℚ) (sy : Int)
    (μ : Nat) (h1 : 1 ≤ μ)
    (h2 : μ ≤ (build_monthly_schedule P rate ty mp qp sy).length) :
    ∃ rec ∈ build_monthly_schedule P rate ty mp qp sy, rec.monthNum = μ := by
  have hmem : μ ∈
      (build_monthly_schedule P rate ty mp qp sy).map MonthlyRecord.monthNum := by
    rw [schedule_months]
    exact List.mem_range'_1.mpr ⟨h1, by omega⟩
  rcases List.mem_map.mp hmem with ⟨rec, hrec, heq⟩
  exact ⟨rec, hrec, heq⟩

theorem schedule_year_eq (P rate : ℚ) (ty : Int) (mp qp : ℚ) (sy : Int) :
    ∀ rec ∈ build_monthly_schedule P rate ty mp qp sy,
      rec.year = sy + ((rec.monthNum - 1) / 12 : Nat) :=
  fun rec hrec => (aux_mem_props _ _ _ _ _ _ _ _ _ rec hrec).2.2.2.2.2.2.2.2

theorem yearRecords_ne_nil_iff (P rate : ℚ) (ty : Int) (mp qp : ℚ) (sy : Int)
    (k : Nat) :
    yearRecords (build_monthly_schedule P rate ty mp qp sy) (sy + (k : Int)) ≠ []
      ↔ 12 * k < (build_monthly_schedule P rate ty mp qp sy).length := by
  rw [yearRecords, ne_eq, List.filter_eq_nil_iff]
  push_neg
  constructor
  · rintro ⟨rec, hrec, hbeq⟩
    have hyear : rec.year = sy + (k : Int) := by
      simpa using hbeq
    have hyeq := schedule_year_eq P rate ty mp qp sy rec hrec
    rw [hyeq] at hyear
    have hk : ((rec.monthNum - 1) / 12 : Nat) = k := by
      have := add_left_cancel hyear
      exact_mod_cast this
    have hb := schedule_month_bounds P rate ty mp qp sy rec hrec
    omega
  · intro hlt
    rcases schedule_exists_month P rate ty mp qp sy (12 * k + 1) (by omega)
      (by omega) with ⟨rec, hrec, hμ⟩
    refine ⟨rec, hrec, ?_⟩
    have hyeq := schedule_year_eq P rate ty mp qp sy rec hrec
    rw [hyeq, hμ]
    have : ((12 * k + 1 - 1) / 12 : Nat) = k := by omega
    rw [this]
    simp

theorem schedule_last_month (P rate : ℚ) (ty : Int) (mp qp : ℚ) (sy : Int)
    (rec : MonthlyRecord)
    (hlast : (build_monthly_schedule P rate ty mp qp sy).getLast? = some rec) :
    rec.monthNum = (build_monthly_schedule P rate ty mp qp sy).length := by
  have hne : build_monthly_schedule P rate ty mp qp sy ≠ [] := by
    intro h
    rw [h] at hlast
    simp at hlast
  have hL : 1 ≤ (build_monthly_schedule P rate ty mp qp sy).length :=
    Nat.one_le_iff_ne_zero.mpr (by simpa using hne)
  have hmap : ((build_monthly_schedule P rate ty mp qp sy).map
      MonthlyRecord.monthNum).getLast? = some rec.monthNum := by
    rw [List.getLast?_map, hlast]
    rfl
  rw [schedule_months] at hmap
  rw [List.getLast?_eq_getElem?] at hmap
  rw [List.length_range'] at hmap
  rw [List.getElem?_eq_getElem (by rw [List.length_range']; omega)] at hmap
  rw [List.getElem_range'_1] at hmap
  simp only [Option.some_inj] at hmap
  omega

theorem year_payoff_propagation (P rate : ℚ) (ty : Int) (mp qp : ℚ) (sy : Int)
    (i j : Nat) (hij : i ≤ j)
    (hfb : max 0 (lastNewBalance (yearRecords
        (build_monthly_schedule P rate ty mp qp sy) (sy + (i : Int)))) = 0) :
    max 0 (lastNewBalance (yearRecords
        (build_monthly_schedule P rate ty mp qp sy) (sy + (j : Int)))) = 0 := by
  rcases Nat.eq_or_lt_of_le hij with rfl | hij2
  · exact hfb
  by_cases hempty :
      yearRecords (build_monthly_schedule P rate ty mp qp sy) (sy + (i : Int)) = []
  · have hnot : ¬ 12 * i < (build_monthly_schedule P rate ty mp qp sy).length := by
      intro hlt
      exact (yearRecords_ne_nil_iff P rate ty mp qp sy i).mpr hlt hempty
    have hj : yearRecords (build_monthly_schedule P rate ty mp qp sy)
        (sy + (j : Int)) = [] := by
      by_contra hne
      have := (yearRecords_ne_nil_iff P rate ty mp qp sy j).mp hne
      omega
    rw [hj]
    simp [lastNewBalance]
  · obtain ⟨rec, hlast⟩ : ∃ rec,
        (yearRecords (build_monthly_schedule P rate ty mp qp sy)
          (sy + (i : Int))).getLast? = some rec := by
      rw [List.getLast?_eq_getLast_of_ne_nil hempty]
      exact ⟨_, rfl⟩
    have hlnb : lastNewBalance (yearRecords
        (build_monthly_schedule P rate ty mp qp sy) (sy + (i : Int)))
          = rec.newBalance := by
      rw [lastNewBalance, hlast]
    rw [hlnb] at hfb
    have hle : rec.newBalance ≤ 0 := by
      by_contra hpos
      push_neg at hpos
      rw [max_eq_right (le_of_lt hpos)] at hfb
      exact absurd hfb (ne_of_gt hpos)
    have hmemf := List.mem_of_mem_getLast? hlast
    have hmem : rec ∈ build_monthly_schedule P rate ty mp qp sy :=
      (List.mem_filter.mp hmemf).1
    have hglast := alive_last _ (schedule_alive P rate ty mp qp sy) rec hmem hle
    have hLmonth := schedule_last_month P rate ty mp qp sy rec hglast
    have hyear : rec.year = sy + (i : Int) := by
      have := (List.mem_filter.mp hmemf).2
      simpa [yearRecords] using this
    have hyeq := schedule_year_eq P rate ty mp qp sy rec hmem
    rw [hyeq] at hyear
    have hi12 : ((rec.monthNum - 1) / 12 : Nat) = i := by
      have := add_left_cancel hyear
      exact_mod_cast this
    have hb := schedule_month_bounds P rate ty mp qp sy rec hmem
    have hj : yearRecords (build_monthly_schedule P rate ty mp qp sy)
        (sy + (j : Int)) = [] := by
      by_contra hne
      have := (yearRecords_ne_nil_iff P rate ty mp qp sy j).mp hne
      omega
    rw [hj]
    simp [lastNewBalance]


theorem cumPP_mono (ys : List YearlySummary)
    (hnn : ∀ y ∈ ys, 0 ≤ y.principalSum + y.prepaymentSum) :
    ∀ {k k' : Nat}, k ≤ k' → cumPP ys k ≤ cumPP ys k' := by
  have hstep : ∀ k, cumPP ys k ≤ cumPP ys (k + 1) := by
    intro k
    rw [cumPP, cumPP, List.take_succ, List.map_append, List.sum_append]
    have h0 : 0 ≤ ((ys[k]?.toList).map
        (fun y => y.principalSum + y.prepaymentSum)).sum := by
      apply List.sum_nonneg
      intro x hx
      rcases List.mem_map.mp hx with ⟨y, hy, rfl⟩
      match hk : ys[k]? with
      | none => rw [hk] at hy; simp at hy
      | some z =>
        rw [hk] at hy
        simp only [Option.toList_some, List.mem_singleton] at hy
        subst hy
        exact hnn y (List.getElem?_mem hk)
    linarith
  intro k k' hkk
  induction hkk with
  | refl => exact le_refl _
  | step h ih => exact le_trans ih (hstep _)

theorem schedule_principal_nonneg (P rate : ℚ) (ty : Int) (mp qp : ℚ) (sy : Int)
    (hP : 0 ≤ P) (hrate : 0 ≤ rate) :
    ∀ rec ∈ build_monthly_schedule P rate ty mp qp sy, 0 ≤ rec.principalPaid := by
  intro rec hrec
  by_cases hty : 0 < ty * 12
  · have hemi := emi_ge_interest P rate ty hP hrate hty
    exact (aux_invariant (rate / 100 / 12) (calculate_car_emi P rate ty)
      mp qp sy ((ty * 12).toNat) P (by positivity) hemi
      ((ty * 12).toNat) P 1 hP (le_refl P) rec hrec).2.1
  · exfalso
    have h0 : (ty * 12).toNat = 0 := by omega
    rw [build_monthly_schedule] at hrec
    rw [h0] at hrec
    simp [aux_zero] at hrec

theorem aggregate_yearly_length (records : List MonthlyRecord) (sy : Int)
    (ty : Nat) : (aggregate_yearly records sy ty).length = ty := by
  rw [aggregate_yearly]
  simp

theorem aggregate_sums_nonneg (P rate : ℚ) (ty : Int) (mp qp : ℚ) (sy : Int)
    (ty2 : Nat) (hP : 0 ≤ P) (hrate : 0 ≤ rate) :
    ∀ y ∈ aggregate_yearly (build_monthly_schedule P rate ty mp qp sy) sy ty2,
      0 ≤ y.principalSum + y.prepaymentSum := by
  intro y hy
  rw [aggregate_yearly] at hy
  rcases List.mem_map.mp hy with ⟨k, hk, rfl⟩
  dsimp only
  have h1 : 0 ≤ ((yearRecords (build_monthly_schedule P rate ty mp qp sy)
      (sy + (k : Int))).map MonthlyRecord.principalPaid).sum := by
    apply List.sum_nonneg
    intro x hx
    rcases List.mem_map.mp hx with ⟨rec, hrec, rfl⟩
    exact schedule_principal_nonneg P rate ty mp qp sy hP hrate rec
      (List.mem_filter.mp hrec).1
  have h2 : 0 ≤ ((yearRecords (build_monthly_schedule P rate ty mp qp sy)
      (sy + (k : Int))).map MonthlyRecord.prepayment).sum := by
    apply List.sum_nonneg
    intro x hx
    rcases List.mem_map.mp hx with ⟨rec, hrec, rfl⟩
    exact (aux_mem_props _ _ _ _ _ _ _ _ _ rec
      (List.mem_filter.mp hrec).1).2.2.2.1
  linarith


/-- C6: for non-negative loan inputs, the percent-loan-paid values over the
years are non-decreasing in chronological order, and every year from the one
whose final balance reaches 0 onward reports exactly 100. -/
theorem pct_loan_paid_monotone (P rate mp qp : ℚ) (sy : Int) (ty : Nat)
    (P0 : ℚ) (hP : 0 ≤ P) (hrate : 0 ≤ rate) (hmp : 0 ≤ mp) (hqp : 0 ≤ qp) :
    (∀ i j, i ≤ j → j < ty →
      (pct_loan_paid (aggregate_yearly
          (build_monthly_schedule P rate (ty : Int) mp qp sy) sy ty) P0).getD i 0 ≤
      (pct_loan_paid (aggregate_yearly
          (build_monthly_schedule P rate (ty : Int) mp qp sy) sy ty) P0).getD j 0) ∧
    (∀ i, i < ty →
      ((aggregate_yearly (build_monthly_schedule P rate (ty : Int) mp qp sy)
          sy ty).getD i dummySummary).finalBalance = 0 →
      ∀ j, i ≤ j → j < ty →
        (pct_loan_paid (aggregate_yearly
            (build_monthly_schedule P rate (ty : Int) mp qp sy) sy ty) P0).getD j 0
          = 100) := by
  set s := build_monthly_schedule P rate (ty : Int) mp qp sy with hs
  set ys := aggregate_yearly s sy ty with hys
  have hlen : ys.length = ty := aggregate_yearly_length s sy ty
  have hpct : ∀ k, k < ty → (pct_loan_paid ys P0).getD k 0 =
      if (ys.getD k dummySummary).finalBalance ≤ 0 then 100
      else if 0 < P0 then min (cumPP ys (k + 1) / P0 * 100) 100 else 100 := by
    intro k hk
    rw [pct_loan_paid, pct_aux_getD P0 ys 0 k (by rw [hlen]; exact hk), zero_add]
  have hfb : ∀ k, k < ty → (ys.getD k dummySummary).finalBalance =
      max 0 (lastNewBalance (yearRecords s (sy + (k : Int)))) := by
    intro k hk
    rw [hys, aggregate_yearly_getD s sy ty k hk]
  have hprop : ∀ i j, i ≤ j → i < ty → j < ty →
      (ys.getD i dummySummary).finalBalance = 0 →
      (ys.getD j dummySummary).finalBalance = 0 := by
    intro i j hij hi hj h0
    rw [hfb j hj]
    rw [hfb i hi] at h0
    exact year_payoff_propagation P rate (ty : Int) mp qp sy i j hij h0
  have hfbnn : ∀ k, k < ty → 0 ≤ (ys.getD k dummySummary).finalBalance := by
    intro k hk
    rw [hfb k hk]
    exact le_max_left _ _
  have hle100 : ∀ k, k < ty → (pct_loan_paid ys P0).getD k 0 ≤ 100 := by
    intro k hk
    rw [hpct k hk]
    split
    · exact le_refl _
    · split
      · exact min_le_right _ _
      · exact le_refl _
  constructor
  · intro i j hij hj
    have hi : i < ty := by omega
    by_cases hfbj : (ys.getD j dummySummary).finalBalance ≤ 0
    · rw [hpct j hj, if_pos hfbj]
      exact hle100 i hi
    · rw [hpct i hi, hpct j hj, if_neg hfbj]
      by_cases hfbi : (ys.getD i dummySummary).finalBalance ≤ 0
      · exfalso
        have h0 : (ys.getD i dummySummary).finalBalance = 0 :=
          le_antisymm hfbi (hfbnn i hi)
        exact hfbj (le_of_eq (hprop i j hij hi hj h0))
      · rw [if_neg hfbi]
        by_cases hP0 : 0 < P0
        · rw [if_pos hP0, if_pos hP0]
          have hc := cumPP_mono ys
            (aggregate_sums_nonneg P rate (ty : Int) mp qp sy ty hP hrate)
            (Nat.add_le_add_right hij 1)
          gcongr
        · rw [if_neg hP0, if_neg hP0]
  · intro i hi h0 j hij hj
    have h0j := hprop i j hij hi hj h0
    rw [hpct j hj, if_pos (le_of_eq h0j)]

/-- Witness for C6 at a concrete input: with principal 100000 at 0% over two
years the percentages for the two years are in order. -/
theorem pct_loan_paid_monotone_witness :
    (pct_loan_paid (aggregate_yearly
        (build_monthly_schedule 100000 0 ((2 : Nat) : Int) 0 0 2024) 2024 2)
        100000).getD 0 0 ≤
    (pct_loan_paid (aggregate_yearly
        (build_monthly_schedule 100000 0 ((2 : Nat) : Int) 0 0 2024) 2024 2)
        100000).getD 1 0 :=
  (pct_loan_paid_monotone 100000 0 0 0 2024 2 100000 (by norm_num) (by norm_num)
    (by norm_num) (by norm_num)).1 0 1 (by norm_num) (by norm_num)

end CarEmi
